import Mathlib

set_option maxHeartbeats 1000000

/-!
Shallow embedding of the FFwebAPI service (Go): the ffmpeg command sanitizer
and placeholder substitution (package ffmpeg), the transcoder driver
`Runner.Run` / `Runner.prepareInput`, the task manager (`processTask`,
`Cancel`, `GetFilePath` in src/task/manager.go), and the output-path
computation used by the HTTP handler.  Machine strings are Lean `String`s
(byte-level Go operations act on ASCII here, so `Char`-level modelling is
faithful); filesystem paths are modelled as lists of path segments.
-/

/-- Task status values (src/task/task.go, `Status` constants). -/
inductive Status
  | queued
  | processing
  | completed
  | failed
  | canceled
  deriving DecidableEq, Repr

/-- The Go string value of each status constant (src/task/task.go). -/
def statusStr : Status → String
  | .queued => "queued"
  | .processing => "processing"
  | .completed => "completed"
  | .failed => "failed"
  | .canceled => "canceled"

/-- The placeholder for the input file in user commands
(ffmpeg package, `InputMediaPlaceholder`). -/
def InputMediaPlaceholder : String := "$\x7bINPUT_MEDIA\x7d"

/-- The metacharacters blocked by `SanitizeAndValidateArgs`:
the second argument of `strings.ContainsAny` in its Rule-3 check. -/
def forbiddenChars : List Char := "|&;`$()<>".toList

/-- Model of `strings.ContainsAny(arg, "|&;`$()<>")`. -/
def containsForbidden (arg : String) : Bool :=
  arg.toList.any (fun c => forbiddenChars.contains c)

/-- The loop body of `SanitizeAndValidateArgs`: walks the arguments carrying
the `hasInput` flag; an argument equal to the placeholder sets the flag and is
exempt from the metacharacter check; any other argument containing a
forbidden metacharacter aborts with an error. -/
def sanitizeLoop : List String → Bool → Except String Bool
  | [], hasInput => .ok hasInput
  | arg :: rest, hasInput =>
    if arg = InputMediaPlaceholder then sanitizeLoop rest true
    else if containsForbidden arg then
      .error ("disallowed character found in argument: " ++ arg)
    else sanitizeLoop rest hasInput

/-- Model of `SanitizeAndValidateArgs` (ffmpeg package): runs the loop with
`hasInput = false`; after the loop, a missing placeholder is an error. -/
def SanitizeAndValidateArgs (args : List String) : Except String Unit :=
  match sanitizeLoop args false with
  | .error e => .error e
  | .ok true => .ok ()
  | .ok false =>
      .error ("command must include the input placeholder " ++ InputMediaPlaceholder)

/-- Go `error` values as they matter to the manager's dispatch: the two
context sentinel errors, `*exec.ExitError`-style errors, `fmt.Errorf`
without `%w` (`errorf`), and `fmt.Errorf("...: %w", e)` wrapping (`wrap`).
Go `==` on errors is identity of the dynamic value, so a `wrap` or `errorf`
value is never `==` to the sentinel `context.Canceled`. -/
inductive GoErr
  | contextCanceled
  | contextDeadlineExceeded
  | exitErr (msg : String)
  | errorf (msg : String)
  | wrap (pre : String) (inner : GoErr)
  deriving DecidableEq, Repr

/-- The `Error()` string of a modelled Go error (`fmt.Errorf` with `%w`
joins with `": "`). -/
def goErrMessage : GoErr → String
  | .contextCanceled => "context canceled"
  | .contextDeadlineExceeded => "context deadline exceeded"
  | .exitErr m => m
  | .errorf m => m
  | .wrap pre e => pre ++ ": " ++ goErrMessage e

/-- `errors.Is(e, context.Canceled) || errors.Is(e, context.DeadlineExceeded)`:
whether the unwrap chain of the error reaches a context sentinel. -/
def indicatesCancellation : GoErr → Bool
  | .contextCanceled => true
  | .contextDeadlineExceeded => true
  | .wrap _ e => indicatesCancellation e
  | _ => false

/-- The placeholder as a character list, for the byte-level substring
operations of package `strings`. -/
def placeholderL : List Char := InputMediaPlaceholder.toList

/-- Model of `strings.Contains(s, pat)` on character lists. -/
def containsSub (pat : List Char) : List Char → Bool
  | [] => pat.isEmpty
  | c :: rest => pat.isPrefixOf (c :: rest) || containsSub pat rest

/-- Model of `strings.Replace(s, pat, rep, 1)` (replace the first occurrence
of a nonempty `pat`) on character lists. -/
def replaceFirstSub (pat rep : List Char) : List Char → List Char
  | [] => []
  | c :: rest =>
    if pat.isPrefixOf (c :: rest) then rep ++ (c :: rest).drop pat.length
    else c :: replaceFirstSub pat rep rest

/-- The placeholder-substitution loop of `Runner.Run` (transcoder driver):
walk the split arguments; at the first argument *containing* the placeholder
substring, replace the first occurrence of the placeholder inside it with
the staged input path and stop (`break`); if no argument contains the
placeholder, fail with the could-not-find-placeholder error. -/
def substituteInputPlaceholder (inputPath : String) : List String → Except String (List String)
  | [] =>
      .error ("could not find placeholder " ++ InputMediaPlaceholder ++ " in command")
  | arg :: rest =>
    if containsSub placeholderL arg.toList then
      .ok ((replaceFirstSub placeholderL inputPath.toList arg.toList).asString :: rest)
    else
      match substituteInputPlaceholder inputPath rest with
      | .error e => .error e
      | .ok r => .ok (arg :: r)

/-- The outcomes of the external effects performed by `Runner.Run`
and `Runner.prepareInput`: the resource gate, `os.CreateTemp`, the
staging copy (download or local copy, including the size checks),
`shlex.Split`, and `cmd.Run()`.  `args` is the split argument list
when `shlexErr` is absent. -/
structure RunEnv where
  resourcesErr : Option GoErr
  createTempErr : Option GoErr
  stageErr : Option GoErr
  shlexErr : Option String
  args : List String
  execErr : Option GoErr

/-- Control-flow model of `Runner.Run` (transcoder driver), tracking whether
the staged input temp file still exists when `Run` returns (first component)
together with the returned error (second component).

Mirrors the source order: 1 `checkResources` (error wrapped as
"insufficient system resources"); 2 `prepareInput` — `os.CreateTemp` first
(no file on failure), then the staging copy; on a staging error `Run`
returns *before* `defer cleanupInput()` is registered, so the already
created temp file persists; 3 `SplitCommand` (shlex error wrapped as
"invalid command syntax") and placeholder substitution; 5 `cmd.Run()`
(error wrapped as "ffmpeg execution failed").  From the `defer` on, every
return removes the staged file. -/
def RunnerRunFile (env : RunEnv) (inputPath : String) : Bool × Option GoErr :=
  match env.resourcesErr with
  | some e => (false, some (.wrap ("insufficient system resources") e))
  | none =>
    match env.createTempErr with
    | some e => (false, some (.wrap ("failed to prepare input") e))
    | none =>
      match env.stageErr with
      | some e => (true, some (.wrap ("failed to prepare input") e))
      | none =>
        match env.shlexErr with
        | some m => (false, some (.wrap ("invalid command syntax") (.errorf m)))
        | none =>
          match substituteInputPlaceholder inputPath env.args with
          | .error m => (false, some (.errorf m))
          | .ok _ =>
            match env.execErr with
            | some e => (false, some (.wrap ("ffmpeg execution failed") e))
            | none => (false, none)

/-- The error dispatch at the end of `Manager.processTask`
(src/task/manager.go): Go compares the driver's returned error with
the context sentinels using `==`. -/
def processTaskDispatch (res : Option GoErr) : Status × String :=
  match res with
  | some e =>
    if e = .contextCanceled ∨ e = .contextDeadlineExceeded then
      (.canceled, "Task was canceled or timed out")
    else
      (.failed, goErrMessage e)
  | none => (.completed, "")

/-- An observable snapshot of a task: its status and whether its
`cancelFunc` field (the cancel handle) is non-nil.  The manager stores a
pointer in `tasks`, so every mutation in `processTask` is observable. -/
structure TaskView where
  status : Status
  cancelSet : Bool
  deriving DecidableEq, Repr

/-- The sequence of observable task snapshots produced by
`Manager.processTask` (src/task/manager.go) for a popped task:

* the task as submitted (`queued`, nil handle) — or already `canceled`
  by `Manager.Cancel` while in queue, still with a nil handle;
* after `t.cancelFunc = cancel`, which the code runs *before* the
  canceled-in-queue check: same status, handle now non-nil;
* for a canceled-in-queue task, `processTask` returns here and nothing
  ever clears the handle;
* otherwise `t.Status = StatusProcessing` is set, the driver runs, and the
  terminal status from the dispatch is stored — the handle is never set
  to nil on any of these lines. -/
def processTaskTrace (canceledInQueue : Bool) (runRes : Option GoErr) : List TaskView :=
  if canceledInQueue then
    [⟨.canceled, false⟩, ⟨.canceled, true⟩]
  else
    [⟨.queued, false⟩, ⟨.queued, true⟩, ⟨.processing, true⟩,
      ⟨(processTaskDispatch runRes).1, true⟩]

/-- The fields of a stored task that `Manager.Cancel` reads or writes. -/
structure TaskRec where
  status : Status
  errorMsg : String
  cancelSet : Bool
  deriving DecidableEq, Repr

/-- Model of `Manager.Cancel` (src/task/manager.go) for a task found in the
map: returns the error returned to the caller (if any) and the task record
afterwards.  Terminal states error out before touching the task; a queued
task is marked canceled with the in-queue message; a processing task has
its cancel function invoked (no field change) when the handle is non-nil. -/
def managerCancel (t : TaskRec) : Option String × TaskRec :=
  match t.status with
  | .completed | .failed | .canceled =>
      (some ("cannot cancel task in state: " ++ statusStr t.status), t)
  | .queued =>
      (none, { t with status := .canceled, errorMsg := "Canceled by user while in queue" })
  | .processing =>
      if t.cancelSet then (none, t)
      else (some ("task is processing but has no cancellation handle"), t)

/-- `managerCancel` applied `n` times (keeping the task record). -/
def cancelIter : Nat → TaskRec → TaskRec
  | 0, t => t
  | n + 1, t => (managerCancel (cancelIter n t)).2

/-- The canceled-in-queue check at the top of `Manager.processTask`: the
driver is invoked unless the popped task's status is `canceled`. -/
def processTaskInvokesDriver (st : Status) : Bool :=
  !(st == .canceled)

/-- Model of `strings.HasPrefix(s, p)` on the characters of the strings. -/
def hasPrefixStr (p s : String) : Bool :=
  p.toList.isPrefixOf s.toList

/-- Errors of `Runner.prepareInput` relevant to staging: a non-OK upstream
response, the input-size limit, and the unsupported data-URI branch. -/
inductive PrepErr
  | upstream (status : Nat)
  | inputTooLarge
  | dataUriUnsupported
  deriving DecidableEq, Repr

/-- Model of the staging logic of `Runner.prepareInput` (transcoder driver),
after the temp file has been created.  The input class is decided by prefix
on `inputMedia` exactly as in the source.  For a URL: a GET whose status is
not `http.StatusOK` (200) fails; otherwise the body is copied through
`io.LimitedReader{N: MaxInputSize + 1}`, so `written = min srcSize
(maxInputSize + 1)`, and `written > MaxInputSize` fails with the
size-limit error.  A `data:` input is rejected.  Otherwise the input is a
local file: `Stat` size above `MaxInputSize` fails, else the copy runs. -/
def prepareInputModel (maxInputSize : Nat) (inputMedia : String)
    (httpStatus : Nat) (srcSize : Nat) : Except PrepErr Unit :=
  if hasPrefixStr ("http://") inputMedia || hasPrefixStr ("https://") inputMedia then
    if httpStatus ≠ 200 then .error (.upstream httpStatus)
    else
      let written := min srcSize (maxInputSize + 1)
      if maxInputSize < written then .error .inputTooLarge else .ok ()
  else if hasPrefixStr ("data:") inputMedia then .error .dataUriUnsupported
  else if maxInputSize < srcSize then .error .inputTooLarge
  else .ok ()

/-- A path segment (a run of characters between separators). -/
abbrev Seg := List Char

/-- An absolute, cleaned filesystem path as its list of segments
(`[]` is the root `/`). -/
abbrev AbsPath := List Seg

/-- Split a relative path string (as characters) at `/` separators. -/
def splitSlash (l : List Char) : List (List Char) :=
  match l with
  | [] => [[]]
  | c :: rest =>
    match splitSlash rest with
    | [] => [[]]
    | h :: t => if c = '/' then [] :: h :: t else (c :: h) :: t

/-- One step of `filepath.Clean` on an absolute path: empty and `.`
segments vanish, `..` removes the last segment (and is dropped at the
root), anything else is appended. -/
def cleanPush (p : AbsPath) (seg : Seg) : AbsPath :=
  if seg = [] ∨ seg = ['.'] then p
  else if seg = ['.', '.'] then p.dropLast
  else p ++ [seg]

/-- Model of `filepath.Join(base, rel)` for an absolute `base`: Go joins
with `/` and runs `filepath.Clean`, which resolves `.` and `..`
lexically. -/
def joinClean (base : AbsPath) (rel : List Char) : AbsPath :=
  (splitSlash rel).foldl cleanPush base

/-- Whether `p` is strictly inside the directory `root`: `root` is a
proper prefix of `p`'s segments. -/
def insideRootStrict (root p : AbsPath) : Bool :=
  root.isPrefixOf p && !(p == root)

/-- Model of `filepath.Base` (Go path/filepath): empty path gives `.`,
trailing separators are stripped, everything up to the final separator is
dropped, and an all-separator path gives `/`. -/
def goBaseL (s : List Char) : List Char :=
  if s.isEmpty then ['.']
  else
    let t := (s.reverse.dropWhile (fun c => c = '/')).reverse
    let b := (t.reverse.takeWhile (fun c => c ≠ '/')).reverse
    if b.isEmpty then ['/'] else b

/-- Model of `Manager.GetFilePath` (src/task/manager.go): reject a filename
that differs from its `filepath.Base`, join it onto the temp root, reject
when `os.Stat` reports the path missing (`statExists` abstracts the
filesystem), and return the joined path. -/
def getFilePathModel (tempDir : AbsPath) (statExists : AbsPath → Bool)
    (filename : List Char) : Except String AbsPath :=
  let clean := goBaseL filename
  if clean ≠ filename then .error ("invalid filename")
  else
    let fullPath := joinClean tempDir filename
    if !(statExists fullPath) then .error ("file not found")
    else .ok fullPath

/-- The only check `handleCreateTask` (src/api/handler.go) performs on the
requested output extension: gin's `binding:"required"`, i.e. non-empty.
No character-level validation is applied to `OutputExt` anywhere. -/
def handlerAcceptsExt (ext : String) : Bool :=
  !(ext == "")

/-- `fmt.Sprintf("%s_output.%s", t.ID, t.OutputExt)` in `Runner.Run`. -/
def outputFilenameL (taskId ext : List Char) : List Char :=
  taskId ++ ("_output.").toList ++ ext

/-- `filepath.Join(r.tempDir, outputFilename)` in `Runner.Run`. -/
def outputPathOf (tempDir : AbsPath) (taskId ext : List Char) : AbsPath :=
  joinClean tempDir (outputFilenameL taskId ext)
theorem sanitizeLoop_ok_iff (args : List String) (h : Bool) :
    (∃ b, sanitizeLoop args h = .ok b) ↔
      ∀ a ∈ args, a ≠ InputMediaPlaceholder → containsForbidden a = false := by
  induction args generalizing h with
  | nil => simp [sanitizeLoop]
  | cons a rest ih =>
    by_cases hph : a = InputMediaPlaceholder
    · simp [sanitizeLoop, hph, ih]
    · by_cases hf : containsForbidden a
      · simp [sanitizeLoop, hph, hf]
      · simp [sanitizeLoop, hph, hf, ih]

theorem sanitizeLoop_ok_val (args : List String) :
    ∀ (h b : Bool), sanitizeLoop args h = .ok b →
      b = (h || args.any (fun a => a = InputMediaPlaceholder)) := by
  induction args with
  | nil => intro h b hb; simp [sanitizeLoop] at hb; simp [hb]
  | cons a rest ih =>
    intro h b hb
    by_cases hph : a = InputMediaPlaceholder
    · rw [sanitizeLoop, if_pos hph] at hb
      have hthis := ih true b hb
      simp only [Bool.true_or] at hthis
      simp [hph, hthis]
    · cases hf : containsForbidden a with
      | true => simp [sanitizeLoop, hph, hf] at hb
      | false =>
        have hb' : sanitizeLoop rest h = .ok b := by
          simpa [sanitizeLoop, hph, hf] using hb
        have hthis := ih h b hb'
        simp [hph, hthis]

/-- C1: `SanitizeAndValidateArgs` returns ok iff at least one token equals the
literal placeholder `${INPUT_MEDIA}` exactly and every token not equal to the
placeholder contains none of the characters `| & ; backtick $ ( ) < >`;
in particular, when it returns ok no non-placeholder token contains a
forbidden metacharacter. -/
theorem sanitize_ok_iff (args : List String) :
    (SanitizeAndValidateArgs args).isOk = true ↔
      ((∃ a ∈ args, a = InputMediaPlaceholder) ∧
        ∀ a ∈ args, a ≠ InputMediaPlaceholder → containsForbidden a = false) := by
  constructor
  · intro hok
    rcases hres : sanitizeLoop args false with e | b
    · simp [SanitizeAndValidateArgs, hres, Except.isOk, Except.toBool] at hok
    · cases b with
      | false => simp [SanitizeAndValidateArgs, hres, Except.isOk, Except.toBool] at hok
      | true =>
        have hclean := (sanitizeLoop_ok_iff args false).mp ⟨true, hres⟩
        have hval := sanitizeLoop_ok_val args false true hres
        simp only [Bool.false_or] at hval
        refine ⟨?_, hclean⟩
        have hany : args.any (fun a => a = InputMediaPlaceholder) = true := hval.symm
        simpa using hany
  · rintro ⟨⟨a, ha, hph⟩, hclean⟩
    rcases (sanitizeLoop_ok_iff args false).mpr hclean with ⟨b, hb⟩
    have hval := sanitizeLoop_ok_val args false b hb
    simp only [Bool.false_or] at hval
    have hany : args.any (fun a => a = InputMediaPlaceholder) = true := by
      simp only [List.any_eq_true, decide_eq_true_eq]
      exact ⟨a, ha, hph⟩
    rw [← hval] at hany
    simp [SanitizeAndValidateArgs, hb, hany, Except.isOk, Except.toBool]

theorem substFirst_error_iff (ip : String) (args : List String) :
    (substituteInputPlaceholder ip args =
        .error ("could not find placeholder " ++ InputMediaPlaceholder ++ " in command")) ↔
      ∀ a ∈ args, containsSub placeholderL a.toList = false := by
  induction args with
  | nil => simp [substituteInputPlaceholder]
  | cons x rest ih =>
    cases hx : containsSub placeholderL x.toList with
    | true =>
      simp only [substituteInputPlaceholder, hx, if_true]
      constructor
      · intro hcontra; cases hcontra
      · intro hall
        have := hall x (by simp)
        rw [hx] at this; cases this
    | false =>
      simp only [substituteInputPlaceholder, hx]
      rcases hres : substituteInputPlaceholder ip rest with e | r
      · rw [hres] at ih
        simp only [Bool.false_eq_true, if_false, List.mem_cons, forall_eq_or_imp, hx,
          true_and]
        exact ih
      · rw [hres] at ih
        simp only [Bool.false_eq_true, if_false]
        constructor
        · intro hcontra; cases hcontra
        · intro hall
          have hrest : ∀ a ∈ rest, containsSub placeholderL a.toList = false :=
            fun a ha => hall a (List.mem_cons_of_mem _ ha)
          have := ih.mpr hrest
          cases this

theorem substFirst_ok (ip a : String) (post : List String)
    (ha : containsSub placeholderL a.toList = true) :
    ∀ pre : List String, (∀ b ∈ pre, containsSub placeholderL b.toList = false) →
      substituteInputPlaceholder ip (pre ++ a :: post) =
        .ok (pre ++ (replaceFirstSub placeholderL ip.toList a.toList).asString :: post) := by
  intro pre
  induction pre with
  | nil =>
    intro _
    simp only [List.nil_append, substituteInputPlaceholder, ha, if_true]
  | cons x xs ih =>
    intro hpre
    have hx := hpre x (by simp)
    simp only [List.cons_append, substituteInputPlaceholder, hx, Bool.false_eq_true,
      if_false, List.append_eq]
    rw [ih (fun b hb => hpre b (List.mem_cons_of_mem _ hb))]

/-- C2 (counterexample): for the argument vector `["x${INPUT_MEDIA}"]` no
token *equals* the sentinel, so by the claim `run` should fail with a
command error — but the driver substitutes inside the token that merely
*contains* the sentinel and succeeds. -/
theorem substitute_contains_counterexample :
    (¬ ∃ a ∈ ["x$\x7bINPUT_MEDIA\x7d"], a = InputMediaPlaceholder) ∧
      substituteInputPlaceholder "/in" ["x$\x7bINPUT_MEDIA\x7d"] = .ok ["x/in"] := by
  constructor
  · decide
  · rfl

/-- C2 (amended): the driver's substitution loop fails with the
could-not-find-placeholder error exactly when no token contains the
sentinel as a substring; and when the tokens split as `pre ++ a :: post`
with every token of `pre` free of the sentinel substring and `a`
containing it, the result substitutes the staged input path for the first
occurrence of the sentinel inside `a` and leaves every other token
unchanged. -/
theorem substitute_first_containing (ip : String) (args : List String) :
    ((substituteInputPlaceholder ip args =
        .error ("could not find placeholder " ++ InputMediaPlaceholder ++ " in command")) ↔
      ∀ a ∈ args, containsSub placeholderL a.toList = false) ∧
    (∀ pre a post, args = pre ++ a :: post →
      (∀ b ∈ pre, containsSub placeholderL b.toList = false) →
      containsSub placeholderL a.toList = true →
      substituteInputPlaceholder ip args =
        .ok (pre ++ (replaceFirstSub placeholderL ip.toList a.toList).asString :: post)) := by
  refine ⟨substFirst_error_iff ip args, ?_⟩
  intro pre a post heq hpre ha
  subst heq
  exact substFirst_ok ip a post ha pre hpre

/-- C2 (amended, witness): instantiating the amended theorem on
`["-i", "${INPUT_MEDIA}", "-c:v"]` with staged path `/in`. -/
theorem substitute_first_containing_witness :
    substituteInputPlaceholder "/in" ["-i", "$\x7bINPUT_MEDIA\x7d", "-c:v"] =
      .ok ["-i", "/in", "-c:v"] := by
  have h := (substitute_first_containing "/in" ["-i", "$\x7bINPUT_MEDIA\x7d", "-c:v"]).2
    ["-i"] "$\x7bINPUT_MEDIA\x7d" ["-c:v"] rfl (by decide) (by decide)
  rw [h]
  rfl

/-- C3: the dispatch at the end of `Manager.processTask` compares the
driver's error to the context sentinels with Go `==`, but `Runner.Run`
only ever returns wrapped (`fmt.Errorf("...: %w", ...)`) or freshly
formatted errors, never a bare sentinel — so the comparison never
succeeds.  Concretely, for a per-task context canceled during the staged
download the driver returns
`failed to prepare input: Get "http://...": context canceled`, an error
whose unwrap chain reaches `context.Canceled` (so it *indicates*
cancellation), yet the task is marked `failed` with that message rather
than `canceled` with `"Task was canceled or timed out"`. -/
theorem cancel_dispatch_never_fires :
    (∀ env ip, (RunnerRunFile env ip).2 ≠ some GoErr.contextCanceled ∧
        (RunnerRunFile env ip).2 ≠ some GoErr.contextDeadlineExceeded) ∧
    (indicatesCancellation
        (GoErr.wrap ("failed to prepare input")
          (GoErr.wrap ("Get \x22http://example.com/in.mp4\x22") GoErr.contextCanceled)) = true) ∧
    (RunnerRunFile
        ⟨none, none,
          some (GoErr.wrap ("Get \x22http://example.com/in.mp4\x22") GoErr.contextCanceled),
          none, [], none⟩ "/in" =
      (true, some (GoErr.wrap ("failed to prepare input")
        (GoErr.wrap ("Get \x22http://example.com/in.mp4\x22") GoErr.contextCanceled)))) ∧
    (processTaskDispatch (some (GoErr.wrap ("failed to prepare input")
        (GoErr.wrap ("Get \x22http://example.com/in.mp4\x22") GoErr.contextCanceled))) =
      (Status.failed,
        "failed to prepare input: Get \x22http://example.com/in.mp4\x22: context canceled")) ∧
    Status.failed ≠ Status.canceled := by
  refine ⟨?_, rfl, rfl, rfl, by decide⟩
  intro env ip
  unfold RunnerRunFile
  refine ⟨?_, ?_⟩ <;> (repeat' split) <;> simp

/-- C6: whether the staged input temp file still exists when `Runner.Run`
returns, per exit path.  On a staging failure after `os.CreateTemp`
succeeded (here: upstream 404), `Run` returns before `defer
cleanupInput()` is registered and the file persists — the failing path.
On the resource-gate, command-syntax, missing-placeholder, execution-error
and success paths the file is gone (never created, or removed by the
deferred cleanup), as the claim demands. -/
theorem staging_failure_leaks_tempfile :
    (RunnerRunFile
        ⟨none, none, some (GoErr.errorf ("failed to download file, status: 404 Not Found")),
          none, [], none⟩ "/in").1 = true ∧
    (RunnerRunFile
        ⟨some (GoErr.errorf ("not enough idle CPU")), none, none, none, [], none⟩ "/in").1
      = false ∧
    (RunnerRunFile
        ⟨none, none, none, some ("EOF found when expecting closing quote"), [], none⟩
        "/in").1 = false ∧
    (RunnerRunFile
        ⟨none, none, none, none, ["-i", "input.mp4"], none⟩ "/in").1 = false ∧
    (RunnerRunFile
        ⟨none, none, none, none, ["-i", "$\x7bINPUT_MEDIA\x7d"],
          some (GoErr.exitErr ("exit status 1"))⟩ "/in").1 = false ∧
    (RunnerRunFile
        ⟨none, none, none, none, ["-i", "$\x7bINPUT_MEDIA\x7d"], none⟩ "/in").1 = false :=
  ⟨rfl, rfl, rfl, rfl, rfl, rfl⟩

/-- C4 (counterexample): a successfully completed task's snapshot still has
a non-nil cancel handle (`processTask` stores the cancel function before
the in-queue check and no line ever sets it back to nil), so the claimed
"non-nil iff processing" equivalence fails at status `completed`. -/
theorem cancelHandle_iff_counterexample :
    (⟨Status.completed, true⟩ : TaskView) ∈ processTaskTrace false none ∧
      (⟨Status.completed, true⟩ : TaskView).cancelSet = true ∧
      (⟨Status.completed, true⟩ : TaskView).status ≠ Status.processing := by
  refine ⟨?_, rfl, by decide⟩
  simp [processTaskTrace, processTaskDispatch]

/-- C4 (amended): along every observable task lifecycle, a `processing`
snapshot always has a non-nil cancel handle; the handle is nil on the
first snapshot (before the worker pops the task — in particular while it
is queued, or canceled in queue); and from the pop on it is never cleared:
the final (terminal) snapshot still carries a non-nil handle. -/
theorem cancelHandle_lifecycle (c : Bool) (r : Option GoErr) :
    (∀ v ∈ processTaskTrace c r, v.status = Status.processing → v.cancelSet = true) ∧
    ((processTaskTrace c r).head?.map TaskView.cancelSet = some false) ∧
    ((processTaskTrace c r).getLast?.map TaskView.cancelSet = some true) := by
  cases c with
  | true => refine ⟨?_, rfl, rfl⟩; intro v hv; simp [processTaskTrace] at hv
            rcases hv with h | h <;> subst h <;> simp
  | false =>
    refine ⟨?_, rfl, rfl⟩
    intro v hv
    simp [processTaskTrace] at hv
    rcases hv with h | h | h | h <;> subst h <;> simp

/-- C4 (amended, witness): the lifecycle theorem instantiated on a task
that was not canceled in queue and whose driver run succeeded. -/
theorem cancelHandle_lifecycle_witness :
    ((⟨Status.processing, true⟩ : TaskView).cancelSet = true) ∧
    ((processTaskTrace false none).head?.map TaskView.cancelSet = some false) ∧
    ((processTaskTrace false none).getLast?.map TaskView.cancelSet = some true) :=
  ⟨(cancelHandle_lifecycle false none).1 ⟨Status.processing, true⟩ (by decide) rfl,
   (cancelHandle_lifecycle false none).2.1,
   (cancelHandle_lifecycle false none).2.2⟩

/-- C5: `Manager.Cancel` on a task in a terminal state returns the
illegal-state error and leaves the record unchanged, however often it is
repeated; on a queued task it transitions the record to `canceled` with
the in-queue message (the handle stays as it was, nil); and the worker's
check at the top of `processTask` never invokes the driver for a task it
observes as `canceled`. -/
theorem cancel_terminal_and_queued (t : TaskRec)
    (ht : t.status = Status.completed ∨ t.status = Status.failed ∨
      t.status = Status.canceled) :
    ((managerCancel t).1 = some ("cannot cancel task in state: " ++ statusStr t.status) ∧
      (managerCancel t).2 = t ∧
      (∀ n, cancelIter n t = t) ∧
      (∀ n, (managerCancel (cancelIter n t)).1 =
        some ("cannot cancel task in state: " ++ statusStr t.status))) ∧
    (∀ e c, managerCancel ⟨Status.queued, e, c⟩ =
        (none, ⟨Status.canceled, "Canceled by user while in queue", c⟩) ∧
      processTaskInvokesDriver ((managerCancel ⟨Status.queued, e, c⟩).2.status) = false) := by
  have hcan : managerCancel t =
      (some ("cannot cancel task in state: " ++ statusStr t.status), t) := by
    rcases t with ⟨st, e, cs⟩
    rcases ht with h | h | h <;> (simp only at h; subst h; rfl)
  have hiter : ∀ n, cancelIter n t = t := by
    intro n
    induction n with
    | zero => rfl
    | succ m ih => rw [cancelIter, ih, hcan]
  refine ⟨⟨by rw [hcan], by rw [hcan], hiter, fun n => by rw [hiter n, hcan]⟩, ?_⟩
  intro e c
  exact ⟨rfl, rfl⟩

/-- C5 (witness): the theorem instantiated on a completed task and a
queued task with empty error message and nil handle. -/
theorem cancel_terminal_and_queued_witness :
    ((managerCancel ⟨Status.completed, "", false⟩).1 =
        some ("cannot cancel task in state: " ++ statusStr Status.completed)) ∧
    ((managerCancel ⟨Status.completed, "", false⟩).2 = ⟨Status.completed, "", false⟩) ∧
    (cancelIter 3 ⟨Status.completed, "", false⟩ = ⟨Status.completed, "", false⟩) ∧
    (managerCancel ⟨Status.queued, "", false⟩ =
      (none, ⟨Status.canceled, "Canceled by user while in queue", false⟩)) ∧
    (processTaskInvokesDriver
      ((managerCancel ⟨Status.queued, "", false⟩).2.status) = false) :=
  ⟨(cancel_terminal_and_queued ⟨Status.completed, "", false⟩ (Or.inl rfl)).1.1,
   (cancel_terminal_and_queued ⟨Status.completed, "", false⟩ (Or.inl rfl)).1.2.1,
   (cancel_terminal_and_queued ⟨Status.completed, "", false⟩ (Or.inl rfl)).1.2.2.1 3,
   ((cancel_terminal_and_queued ⟨Status.completed, "", false⟩ (Or.inl rfl)).2 "" false).1,
   ((cancel_terminal_and_queued ⟨Status.completed, "", false⟩ (Or.inl rfl)).2 "" false).2⟩

/-- C7: for both URL and local-path inputs, staging accepts an input of
exactly `MaxInputSize` bytes and rejects one of `MaxInputSize + 1` bytes
with the input-too-large error (for URLs the copy runs through
`io.LimitedReader{N: MaxInputSize + 1}`, so the failure manifests once
more than `MaxInputSize` bytes have been observed). -/
theorem staging_size_boundary (maxSize : Nat) :
    prepareInputModel maxSize "http://host/file.mp4" 200 maxSize = .ok () ∧
    prepareInputModel maxSize "http://host/file.mp4" 200 (maxSize + 1) =
      .error .inputTooLarge ∧
    prepareInputModel maxSize "https://host/file.mp4" 200 maxSize = .ok () ∧
    prepareInputModel maxSize "https://host/file.mp4" 200 (maxSize + 1) =
      .error .inputTooLarge ∧
    prepareInputModel maxSize "input.mp4" 0 maxSize = .ok () ∧
    prepareInputModel maxSize "input.mp4" 0 (maxSize + 1) = .error .inputTooLarge := by
  have hp1 : hasPrefixStr ("http://") "http://host/file.mp4" = true := by decide
  have hp2 : hasPrefixStr ("https://") "https://host/file.mp4" = true := by decide
  have hp3 : hasPrefixStr ("http://") "https://host/file.mp4" = false := by decide
  have hp4 : hasPrefixStr ("https://") "http://host/file.mp4" = false := by decide
  have hp5 : hasPrefixStr ("http://") "input.mp4" = false := by decide
  have hp6 : hasPrefixStr ("https://") "input.mp4" = false := by decide
  have hp7 : hasPrefixStr ("data:") "input.mp4" = false := by decide
  have hmin1 : min maxSize (maxSize + 1) = maxSize := by omega
  have hmin2 : min (maxSize + 1) (maxSize + 1) = maxSize + 1 := by omega
  refine ⟨?_, ?_, ?_, ?_, ?_, ?_⟩ <;>
    simp [prepareInputModel, hp1, hp2, hp3, hp4, hp5, hp6, hp7, hmin1, hmin2]

/-- C8 (counterexample): an upstream GET answering `206 Partial Content`
is in the 2xx range, yet staging rejects it with the upstream error —
`prepareInput` accepts only `http.StatusOK` (exactly 200). -/
theorem download_status_2xx_counterexample :
    (200 ≤ 206 ∧ 206 < 300) ∧
      prepareInputModel 1000000 "http://host/file.mp4" 206 10 =
        .error (.upstream 206) :=
  ⟨by decide, rfl⟩

/-- C8 (amended): for an `http://` or `https://` input, staging fails with
the upstream error exactly when the GET response status differs from 200;
only a response with status exactly `http.StatusOK` is accepted for
download. -/
theorem download_status_ok_iff_200 (maxSize srcSize st : Nat) :
    (prepareInputModel maxSize "http://host/file.mp4" st srcSize =
        .error (.upstream st) ↔ st ≠ 200) ∧
    (prepareInputModel maxSize "https://host/file.mp4" st srcSize =
        .error (.upstream st) ↔ st ≠ 200) := by
  have hp1 : hasPrefixStr ("http://") "http://host/file.mp4" = true := by decide
  have hp2 : hasPrefixStr ("https://") "https://host/file.mp4" = true := by decide
  have hp3 : hasPrefixStr ("http://") "https://host/file.mp4" = false := by decide
  constructor <;>
  · simp only [prepareInputModel, hp1, hp2, hp3, Bool.true_or, Bool.or_true, if_true]
    by_cases hst : st = 200
    · subst hst
      simp only [ne_eq, not_true_eq_false, if_false, if_neg]
      constructor
      · intro hcontra
        split at hcontra <;> cases hcontra
      · intro hcontra; exact hcontra.elim
    · simp [hst]

/-- C9: `handleCreateTask` applies no character-level validation to the
requested output extension — only gin's non-empty binding — so an
extension containing traversal sequences is accepted, and the output path
`filepath.Join(tempDir, fmt.Sprintf("%s_output.%s", id, ext))` computed in
`Runner.Run` resolves outside the temp root: with temp root
`/tmp/ffwebapi_x1` and extension `../../../../etc/passwd` the joined, cleaned
path is `/etc/passwd`. -/
theorem outputExt_path_escape :
    handlerAcceptsExt "../../../../etc/passwd" = true ∧
    outputPathOf [("tmp").toList, ("ffwebapi_x1").toList] ("t1").toList
        ("../../../../etc/passwd").toList =
      [("etc").toList, ("passwd").toList] ∧
    insideRootStrict [("tmp").toList, ("ffwebapi_x1").toList]
        (outputPathOf [("tmp").toList, ("ffwebapi_x1").toList] ("t1").toList
          ("../../../../etc/passwd").toList) = false :=
  ⟨rfl, rfl, rfl⟩

/-- C10 (counterexample): the filename `..` equals its own
`filepath.Base`, so `GetFilePath` accepts it, and
`filepath.Join(tempDir, "..")` cleans to the *parent* of the temp root —
a path at distance one outside the root, returned whenever `os.Stat`
succeeds there (the parent of a temp directory always exists). -/
theorem getFilePath_dotdot_counterexample :
    getFilePathModel [("tmp").toList, ("ffwebapi_x1").toList] (fun _ => true)
        ("..").toList =
      .ok [("tmp").toList] ∧
    insideRootStrict [("tmp").toList, ("ffwebapi_x1").toList] [("tmp").toList] = false :=
  ⟨rfl, rfl⟩

theorem goBaseL_fixed_no_slash (fn : List Char) (hfix : goBaseL fn = fn)
    (h1 : fn ≠ ['.']) (h3 : fn ≠ ['/']) :
    fn ≠ [] ∧ '/' ∉ fn := by
  cases hemp : fn.isEmpty with
  | true =>
    rw [goBaseL, if_pos hemp] at hfix
    exact absurd hfix.symm h1
  | false =>
    rw [goBaseL, if_neg (by simp [hemp])] at hfix
    by_cases hbe :
        (((fn.reverse.dropWhile (fun c => c = '/')).reverse.reverse.takeWhile
          (fun c => c ≠ '/')).reverse).isEmpty
    · rw [if_pos hbe] at hfix
      exact absurd hfix.symm h3
    · rw [if_neg hbe] at hfix
      refine ⟨by simpa using hemp, ?_⟩
      intro hmem
      rw [← hfix, List.mem_reverse] at hmem
      have := List.mem_takeWhile_imp hmem
      simp at this

theorem splitSlash_no_slash (fn : List Char) (hns : '/' ∉ fn) :
    splitSlash fn = [fn] := by
  induction fn with
  | nil => rfl
  | cons c rest ih =>
    have hc : c ≠ '/' := fun h => hns (h ▸ List.mem_cons_self c rest)
    have hrest : '/' ∉ rest := fun h => hns (List.mem_cons_of_mem _ h)
    simp only [splitSlash, ih hrest]
    simp [hc]

/-- C10 (amended): every filename accepted by `GetFilePath` other than
`.`, `..` and `/` yields the path `tempDir/filename`, strictly inside the
temp root; the three excluded filenames pass the basename check but
resolve to the root itself (`.` and `/`) or to its parent (`..`). -/
theorem getFilePath_inside_root (tempDir : AbsPath) (statExists : AbsPath → Bool)
    (fn : List Char) (p : AbsPath)
    (hok : getFilePathModel tempDir statExists fn = .ok p)
    (h1 : fn ≠ ['.']) (h2 : fn ≠ ['.', '.']) (h3 : fn ≠ ['/']) :
    p = tempDir ++ [fn] ∧ insideRootStrict tempDir p = true := by
  by_cases hcl : goBaseL fn ≠ fn
  · simp [getFilePathModel, if_pos hcl] at hok
  · push_neg at hcl
    obtain ⟨hnil, hns⟩ := goBaseL_fixed_no_slash fn hcl h1 h3
    have hjoin : joinClean tempDir fn = tempDir ++ [fn] := by
      rw [joinClean, splitSlash_no_slash fn hns]
      simp only [List.foldl_cons, List.foldl_nil]
      rw [cleanPush, if_neg (by simp [hnil, h1]), if_neg h2]
    by_cases hex : statExists (joinClean tempDir fn)
    · have hp : p = tempDir ++ [fn] := by
        simp [getFilePathModel, hcl, hex] at hok
        rw [← hok, hjoin]
      refine ⟨hp, ?_⟩
      rw [hp, insideRootStrict]
      have hpre : tempDir.isPrefixOf (tempDir ++ [fn]) = true := by
        rw [List.isPrefixOf_iff_prefix]
        exact ⟨[fn], rfl⟩
      have hne : ((tempDir ++ [fn]) == tempDir) = false := by
        rw [beq_eq_false_iff_ne]
        intro hcontra
        have := congrArg List.length hcontra
        simp at this
      rw [hpre, hne]
      rfl
    · simp [getFilePathModel, hcl, hex] at hok

/-- C10 (amended, witness): the amended theorem instantiated on the
accepted filename `t1_output.mp4` under temp root `/tmp/ffwebapi_x1`. -/
theorem getFilePath_inside_root_witness :
    [("tmp").toList, ("ffwebapi_x1").toList, ("t1_output.mp4").toList] =
        [("tmp").toList, ("ffwebapi_x1").toList] ++ [("t1_output.mp4").toList] ∧
      insideRootStrict [("tmp").toList, ("ffwebapi_x1").toList]
        [("tmp").toList, ("ffwebapi_x1").toList, ("t1_output.mp4").toList] = true :=
  getFilePath_inside_root [("tmp").toList, ("ffwebapi_x1").toList] (fun _ => true)
    ("t1_output.mp4").toList
    [("tmp").toList, ("ffwebapi_x1").toList, ("t1_output.mp4").toList]
    rfl (by decide) (by decide) (by decide)

/-- C1 (witness): the equivalence applied to a concrete valid command. -/
theorem sanitize_ok_iff_witness :
    (SanitizeAndValidateArgs
      ["-i", "$\x7bINPUT_MEDIA\x7d", "-c:v", "libx264"]).isOk = true :=
  (sanitize_ok_iff ["-i", "$\x7bINPUT_MEDIA\x7d", "-c:v", "libx264"]).mpr (by decide)

/-- C7 (witness): the size boundary instantiated at `MaxInputSize = 1024`. -/
theorem staging_size_boundary_witness :
    prepareInputModel 1024 "http://host/file.mp4" 200 1024 = .ok () ∧
    prepareInputModel 1024 "http://host/file.mp4" 200 (1024 + 1) =
      .error .inputTooLarge ∧
    prepareInputModel 1024 "https://host/file.mp4" 200 1024 = .ok () ∧
    prepareInputModel 1024 "https://host/file.mp4" 200 (1024 + 1) =
      .error .inputTooLarge ∧
    prepareInputModel 1024 "input.mp4" 0 1024 = .ok () ∧
    prepareInputModel 1024 "input.mp4" 0 (1024 + 1) = .error .inputTooLarge :=
  staging_size_boundary 1024

/-- C8 (amended, witness): the only-200 equivalence applied at status 206. -/
theorem download_status_ok_iff_200_witness :
    prepareInputModel 100 "http://host/file.mp4" 206 5 = .error (.upstream 206) :=
  (download_status_ok_iff_200 100 5 206).1.mpr (by decide)
